import Mathlib

/-!
Shallow embedding of the request-governor core of the `img-url` repository:
the retry executor (`withRetry`), the rate-limit classifier
(`isRateLimitError`), the rate-limited queue (`RateLimiter`), the
OpenRouter response post-processing (`generateOpenRouterPrompt`), and the
batch orchestrator (`usePromptGeneration.generatePrompts`).

Numbers that are JavaScript `number`s are modelled as rationals (`ℚ`);
integer counters as `Nat`.  Thrown JavaScript values are modelled by
`JSError`; promise outcomes by `Except`.
-/

namespace ImgUrl

/-! ### String helpers (models of the JS string operations used) -/

/-- ASCII-faithful model of JS `String.prototype.toLowerCase` on a char. -/
def lowerList (l : List Char) : List Char := l.map Char.toLower

/-- Model of JS `a.startsWith(b)` on char lists (`b` a leading part of `a`
is tested as `listIsPref b a`). -/
def listIsPref : List Char → List Char → Bool
  | [], _ => true
  | _ :: _, [] => false
  | a :: as, b :: bs => a = b && listIsPref as bs

/-- Model of JS `s.includes(pat)`: `containsSub s pat` is true when `pat`
occurs as a contiguous run inside `s`. -/
def containsSub : List Char → List Char → Bool
  | [], pat => pat.isEmpty
  | c :: rest, pat => listIsPref pat (c :: rest) || containsSub rest pat

/-! ### Error values and the rate-limit classifier
(`src/src/components/ImageCard.tsx`, `isRateLimitError`, lines 290-301) -/

/-- A thrown JavaScript value: either an `Error` instance carrying a
message, or any other value (whose `String(...)` rendering is kept). -/
inductive JSError where
  | errorObj (message : String)
  | other (repr : String)
deriving DecidableEq

/-- `error instanceof Error ? error : new Error(String(error))`. -/
def toJSError : JSError → JSError
  | .errorObj m => .errorObj m
  | .other s => .errorObj s

/-- `isRateLimitError` from the source: an `Error` whose lower-cased
message includes one of the four throttle markers; any non-`Error` value
is not a rate-limit error. -/
def isRateLimitError : JSError → Bool
  | .errorObj message =>
      let m := lowerList message.toList
      containsSub m "429".toList ||
      containsSub m "rate limit".toList ||
      containsSub m "resource exhausted".toList ||
      containsSub m "too many requests".toList
  | .other _ => false

/-! ### Rate-limit configuration (`RateLimitConfig`, `DEFAULT_RATE_LIMIT_CONFIG`) -/

structure RateLimitConfig where
  requestsPerSecond : ℚ
  delayMs : ℚ
  maxRetries : Nat
  initialBackoffMs : ℚ
  maxBackoffMs : ℚ
  backoffMultiplier : ℚ
deriving DecidableEq

/-- `DEFAULT_RATE_LIMIT_CONFIG` from the source. -/
def DEFAULT_RATE_LIMIT_CONFIG : RateLimitConfig :=
  ⟨1/2, 2000, 3, 2000, 30000, 2⟩

/-! ### The retry executor (`withRetry`, lines 306-343)

An invocation of the wrapped action is modelled by an oracle
`Nat → Except JSError String` giving the outcome of the `attempt`-th call.
The trace records the final outcome, the number of calls performed, and
the list of backoff waits in order; the `onRetry` callback is invoked
exactly once per recorded wait, with that wait as its delay argument. -/

structure RetryTrace where
  result : Except JSError String
  calls : Nat
  waits : List ℚ

/-- The loop body of `withRetry`: `attempt` is the 0-based loop counter,
`remaining = maxRetries - attempt` the number of retries still allowed,
`backoff` the current backoff, `calls`/`waits` the trace so far. -/
def withRetryGo (oracle : Nat → Except JSError String) (cfg : RateLimitConfig) :
    Nat → Nat → ℚ → Nat → List ℚ → RetryTrace
  | attempt, remaining, backoff, calls, waits =>
    match oracle attempt with
    | .ok v => ⟨.ok v, calls + 1, waits⟩
    | .error e =>
      if isRateLimitError e then
        match remaining with
        | 0 => ⟨.error (toJSError e), calls + 1, waits⟩
        | r + 1 =>
            withRetryGo oracle cfg (attempt + 1) r
              (min (backoff * cfg.backoffMultiplier) cfg.maxBackoffMs)
              (calls + 1) (waits ++ [backoff])
      else ⟨.error (toJSError e), calls + 1, waits⟩

/-- `withRetry(fn, config, onRetry?)` from the source. -/
def withRetry (oracle : Nat → Except JSError String) (cfg : RateLimitConfig) : RetryTrace :=
  withRetryGo oracle cfg 0 cfg.maxRetries cfg.initialBackoffMs 0 []

/-- The sequence of backoff waits produced when every attempt fails
retryably: `b`, then `min (b*m) M`, and so on, `r` waits in total. -/
def expWaits (m M : ℚ) : ℚ → Nat → List ℚ
  | _, 0 => []
  | b, r + 1 => b :: expWaits m M (min (b * m) M) r

/-! ### Sample oracles used by the witnesses -/

/-- An action that fails with a throttling error on every attempt. -/
def allRLOracle : Nat → Except JSError String :=
  fun _ => .error (.errorObj "429 Too Many Requests")

/-- An action whose first call fails with a non-retryable error. -/
def nonRLOracle : Nat → Except JSError String :=
  fun _ => .error (.errorObj "invalid api key")

/-! ### The rate-limited queue (`RateLimiter`, lines 149-247)

The drain loop `processQueue` is modelled on a simulated clock: each
pending item is abstracted by the duration its `execute()` takes, and
`dispatchTimes` returns the instants at which the loop begins each
dispatch (the `this.lastRequestTime = Date.now()` of each iteration). -/

/-- `Math.max(this.config.delayMs, 1000 / this.config.requestsPerSecond)`. -/
def minDelayOf (cfg : RateLimitConfig) : ℚ :=
  max cfg.delayMs (1000 / cfg.requestsPerSecond)

/-- The drain loop's clock state: current simulated time and the
`lastRequestTime` field of the `RateLimiter`. -/
structure DrainState where
  time : ℚ
  lastRequestTime : ℚ
deriving DecidableEq

/-- One iteration of the `while` loop of `processQueue`: compute the time
since the last request, sleep the remaining deficit, record the dispatch
instant, and run the item for `dur` milliseconds.  Returns the dispatch
instant and the clock state after the item completes. -/
def dispatchStep (cfg : RateLimitConfig) (st : DrainState) (dur : ℚ) : ℚ × DrainState :=
  let timeSinceLastRequest := st.time - st.lastRequestTime
  let delay := max 0 (minDelayOf cfg - timeSinceLastRequest)
  let t := st.time + delay
  (t, ⟨t + dur, t⟩)

/-- Dispatch instants of a full drain of a queue whose items take the
given durations, in FIFO order. -/
def dispatchTimes (cfg : RateLimitConfig) : DrainState → List ℚ → List ℚ
  | _, [] => []
  | st, dur :: durs =>
      (dispatchStep cfg st dur).1 ::
        dispatchTimes cfg (dispatchStep cfg st dur).2 durs

/-- The queue-relevant state of a `RateLimiter` instance.  Pending entries
are identified by the numeric id of their caller's promise; an entry that
has already been shifted out of `queue` and is executing is *not* in
`queue` (it lives in the drain loop's local `item`). -/
structure LimiterState where
  queue : List Nat
  isProcessing : Bool
  lastRequestTime : ℚ
  config : RateLimitConfig
deriving DecidableEq

/-- `getQueueSize()` from the source. -/
def getQueueSize (st : LimiterState) : Nat := st.queue.length

/-- `clearQueue()` from the source: `splice(0)` empties the queue, and each
removed item's promise is rejected with `new Error('Queue cleared')`.
Returns the new state and the list of (promise id, rejection message)
pairs. -/
def clearQueue (st : LimiterState) : LimiterState × List (Nat × String) :=
  (⟨[], st.isProcessing, st.lastRequestTime, st.config⟩,
   st.queue.map (fun i => (i, "Queue cleared")))

/-! ### The module-global limiter configuration
(`configureRateLimiter` lines 255-257, `generatePromptForImage` lines 449-486)

`generatePromptForImage` first applies `options.rateLimitConfig` (when
present) to the module-global `rateLimiter` via `configureRateLimiter`,
then reads the resulting global configuration and uses it as the retry
policy for this call.  Only the configuration flow is modelled here. -/

/-- A `Partial<RateLimitConfig>`: each key optionally present. -/
structure ConfigPatch where
  requestsPerSecond : Option ℚ
  delayMs : Option ℚ
  maxRetries : Option Nat
  initialBackoffMs : Option ℚ
  maxBackoffMs : Option ℚ
  backoffMultiplier : Option ℚ
deriving DecidableEq

/-- The object spread `{ ...c, ...p }`: keys present in `p` win. -/
def mergeConfig (c : RateLimitConfig) (p : ConfigPatch) : RateLimitConfig :=
  ⟨p.requestsPerSecond.getD c.requestsPerSecond,
   p.delayMs.getD c.delayMs,
   p.maxRetries.getD c.maxRetries,
   p.initialBackoffMs.getD c.initialBackoffMs,
   p.maxBackoffMs.getD c.maxBackoffMs,
   p.backoffMultiplier.getD c.backoffMultiplier⟩

/-- `configureRateLimiter(config)`: `rateLimiter.updateConfig(config)`,
i.e. `this.config = { ...this.config, ...config }` on the global
instance. -/
def configureRateLimiter (globalConfig : RateLimitConfig) (p : ConfigPatch) : RateLimitConfig :=
  mergeConfig globalConfig p

/-- The configuration flow of `generatePromptForImage`: given the global
limiter's configuration and the call's `options.rateLimitConfig`, returns
(the config governing this call's retries, the global config after the
call). -/
def generatePromptForImageConfig (globalConfig : RateLimitConfig)
    (rateLimitConfig : Option ConfigPatch) : RateLimitConfig × RateLimitConfig :=
  match rateLimitConfig with
  | some p => (configureRateLimiter globalConfig p, configureRateLimiter globalConfig p)
  | none => (globalConfig, globalConfig)

/-! ### The batch orchestrator (`usePromptGeneration.generatePrompts`,
`src/src/hooks/usePromptGeneration.ts` lines 61-163)

The `prompts` React map is modelled as an association list (JS `Map`
semantics: `set` replaces in place or appends).  Each per-url async job is
abstracted by its outcome (`Except`: the resolved prompt text or the
thrown error's message).  All jobs start synchronously; their terminal
updates arrive in an arbitrary interleaving order, modelled by an `order`
list parameter. -/

inductive JobStatus where
  | pending
  | generating
  | retrying
  | completed
  | error
deriving DecidableEq

/-- One value of the `prompts` map: a `PromptResult` as the hook builds
them (`url`, `prompt`, optional `error` message, `status`). -/
structure PromptEntry where
  url : String
  prompt : String
  error : Option String
  status : JobStatus
deriving DecidableEq

abbrev PromptMap := List (String × PromptEntry)

/-- JS `Map.prototype.get`. -/
def mapGet : PromptMap → String → Option PromptEntry
  | [], _ => none
  | (a, b) :: rest, k => if a = k then some b else mapGet rest k

/-- JS `Map.prototype.set`: replace in place, else append. -/
def mapSet : PromptMap → String → PromptEntry → PromptMap
  | [], k, v => [(k, v)]
  | (a, b) :: rest, k, v =>
      if a = k then (k, v) :: rest else (a, b) :: mapSet rest k v

/-- JS `Map.prototype.has`. -/
def mapHas (m : PromptMap) (k : String) : Bool := (mapGet m k).isSome

/-- `newMap.get(url)?.status === s`. -/
def statusIs (m : PromptMap) (k : String) (s : JobStatus) : Bool :=
  match mapGet m k with
  | some e => e.status = s
  | none => false

/-- Lines 72-84: initialise every url not yet present (or previously in
`error` status) to a fresh pending entry. -/
def initPrompts (m : PromptMap) (urls : List String) : PromptMap :=
  urls.foldl (fun acc url =>
    if !mapHas acc url || statusIs acc url .error then
      mapSet acc url ⟨url, "", none, .pending⟩
    else acc) m

/-- Lines 107-115: mark a job `generating` unless it is already
`completed`; the spread keeps the stored prompt and clears `error`. -/
def setGenerating (m : PromptMap) (url : String) : PromptMap :=
  if statusIs m url .completed then m
  else
    match mapGet m url with
    | some cur => mapSet m url ⟨url, cur.prompt, none, .generating⟩
    | none => mapSet m url ⟨url, "", none, .generating⟩

/-- Lines 135-155: the terminal update of one job — `completed` with the
text on success, `error` with the failure message on a throw. -/
def applyOutcome (m : PromptMap) (url : String) (o : Except String String) : PromptMap :=
  match o with
  | .ok prompt => mapSet m url ⟨url, prompt, none, .completed⟩
  | .error e => mapSet m url ⟨url, "", some e, .error⟩

/-- The terminal entry a job's reference holds once that job finishes. -/
def terminalEntry (url : String) (o : Except String String) : PromptEntry :=
  match o with
  | .ok prompt => ⟨url, prompt, none, .completed⟩
  | .error e => ⟨url, "", some e, .error⟩

/-- `ProgressInfo` from the hook. -/
structure ProgressInfo where
  current : Nat
  total : Nat
  percentage : ℤ
deriving DecidableEq

/-- JS `Math.round` on a (rational-modelled) number: half-up. -/
def jsRound (q : ℚ) : ℤ := ⌊q + 1 / 2⌋

/-- Lines 94-102 (`updateProgress`): the snapshot published after the
`c`-th job of `total` reaches a terminal state. -/
def mkProgress (c total : Nat) : ProgressInfo :=
  ⟨c, total, jsRound ((c / total : ℚ) * 100)⟩

/-- Result of a whole batch run: the final `prompts` map and the sequence
of progress snapshots published, in order. -/
structure BatchResult where
  map : PromptMap
  snapshots : List ProgressInfo

/-- The terminal phase of the batch: jobs reach their terminal state in
the interleaving order `order`; each applies its terminal map update and
then `updateProgress()` (the `finally` block). -/
def runTerminalEvents (m : PromptMap) (total : Nat)
    (outcomes : String → Except String String) (order : List String) : BatchResult :=
  let fin := order.foldl
    (fun (acc : PromptMap × Nat × List ProgressInfo) url =>
      (applyOutcome acc.1 url (outcomes url), acc.2.1 + 1,
       acc.2.2 ++ [mkProgress (acc.2.1 + 1) total]))
    (m, 0, [])
  ⟨fin.1, fin.2.2⟩

/-- `generatePrompts(urls, ...)`, with each job abstracted by its outcome:
initialise the map, synchronously mark every job `generating`, then let the
jobs finish in the interleaving order `order`.  The function is total —
every per-job failure is caught in the job's own `try`/`catch`, so the
model needs no batch-level error case.  `Promise.all` resolves only after
all of `order` is consumed. -/
def generatePromptsModel (prior : PromptMap) (urls : List String)
    (outcomes : String → Except String String) (order : List String) : BatchResult :=
  let m0 := initPrompts prior urls
  let m1 := urls.foldl setGenerating m0
  runTerminalEvents m1 urls.length outcomes order

/-! ### Per-job action trace (lines 104-159)

For the resubmission claim we record, per url, the externally visible
actions of one job closure: the conditional `generating` status update,
the (unconditional) call of the `generatePromptForImage` adapter pipeline,
and the terminal status update. -/

inductive JobAction where
  | setStatus (url : String) (s : JobStatus)
  | invokeAdapter (url : String)
deriving DecidableEq

/-- The action sequence of the job closure for `url`, run against the map
state `m` at its start: there is no guard on the adapter call — it is
issued whatever the current status of `url`. -/
def jobTrace (m : PromptMap) (url : String) (o : Except String String) : List JobAction :=
  (if statusIs m url .completed then [] else [JobAction.setStatus url .generating])
    ++ [JobAction.invokeAdapter url]
    ++ (match o with
        | .ok _ => [JobAction.setStatus url .completed]
        | .error _ => [JobAction.setStatus url .error])

/-- Outcomes used by the orchestrator witnesses. -/
def sampleOutcomes : String → Except String String :=
  fun u => if u = "a.png" then .ok "prompt for a" else .error "boom"

/-- All-succeeding outcomes, for the 3-reference end-to-end witness. -/
def okOutcomes : String → Except String String :=
  fun _ => .ok "generated prompt"

/-! ### OpenRouter response post-processing
(`src/src/utils/openRouter.ts`, `generateOpenRouterPrompt`, lines 127-155)

The raw response text is cleaned by three regex replacements and a trim,
then known conversational lead-in phrases are stripped.  The regexes are
modelled character-exactly on `List Char`. -/

/-- The JS `\s` class (ASCII part plus NBSP and BOM; all inputs considered
here are ASCII). -/
def isSpaceChar (c : Char) : Bool :=
  c = ' ' || c = '\t' || c = '\n' || c = '\r' || c = '\x0b' || c = '\x0c' ||
  c = '\u00A0' || c = '\uFEFF'

/-- Scanner state for the replacement of the multiline-anchored greedy
header pattern (three hashes then whitespace) with the empty string:
`norm ls` — ordinary scanning, `ls` true at a line start; `pend1`/`pend2` —
one/two `#` seen at a line start; `ws nl` — consuming the greedy `\s*` of a
match, `nl` true when the last consumed character was a newline (so the
position after the match is again a line start). -/
inductive HMode where
  | norm (ls : Bool)
  | pend1
  | pend2
  | ws (nl : Bool)

/-- One character of the header replacement scan.  The output is
accumulated in reverse. -/
def hdrStep : List Char × HMode → Char → List Char × HMode
  | (out, .norm ls), c =>
      if ls && (c = '#') then (out, .pend1)
      else (c :: out, .norm (c = '\n'))
  | (out, .pend1), c =>
      if c = '#' then (out, .pend2)
      else (c :: '#' :: out, .norm (c = '\n'))
  | (out, .pend2), c =>
      if c = '#' then (out, .ws false)
      else (c :: '#' :: '#' :: out, .norm (c = '\n'))
  | (out, .ws nl), c =>
      if isSpaceChar c then (out, .ws (c = '\n'))
      else if nl && (c = '#') then (out, .pend1)
      else (c :: out, .norm (c = '\n'))

/-- Flush an unfinished partial `###` match at end of input. -/
def hdrFlush : List Char × HMode → List Char
  | (out, .pend1) => ('#' :: out).reverse
  | (out, .pend2) => ('#' :: '#' :: out).reverse
  | (out, _) => out.reverse

/-- The first replacement of the source: every line-start run of three
hashes and the greedy whitespace after it is deleted. -/
def stripHeaders (l : List Char) : List Char :=
  hdrFlush (l.foldl hdrStep ([], .norm true))

/-- The second replacement of the source: delete every non-overlapping
occurrence of two asterisks, scanning left to right. -/
def removeBold : List Char → List Char
  | '*' :: '*' :: rest => removeBold rest
  | c :: rest => c :: removeBold rest
  | [] => []

/-- A double or single quote (39 is the apostrophe character). -/
def isQuoteChar (c : Char) : Bool :=
  c = '"' || c.toNat = 39

/-- The third replacement of the source: one leading and one trailing
quote character are removed (no multiline flag — string start/end only). -/
def stripWrapQuotes (l : List Char) : List Char :=
  let l1 := match l with
    | c :: rest => if isQuoteChar c then rest else c :: rest
    | [] => []
  match l1.reverse with
  | c :: rest => if isQuoteChar c then rest.reverse else l1
  | [] => l1

/-- JS `String.prototype.trim`. -/
def jsTrim (l : List Char) : List Char :=
  ((l.dropWhile isSpaceChar).reverse.dropWhile isSpaceChar).reverse

/-- The split class of `content.split(/[:\n]/)`. -/
def isSep (c : Char) : Bool := c = ':' || c = '\n'

/-- `content.split(/[:\n]/)` on char lists. -/
def splitCN : List Char → List (List Char)
  | [] => [[]]
  | c :: rest =>
      if isSep c then [] :: splitCN rest
      else
        match splitCN rest with
        | [] => [[c]]
        | h :: t => (c :: h) :: t

/-- `parts.join(' ')` on char lists. -/
def joinSp : List (List Char) → List Char
  | [] => []
  | [x] => x
  | x :: y :: t => x ++ ' ' :: joinSp (y :: t)

/-- Everything after the first colon or newline (empty when there is
none). -/
def afterFirstSep (l : List Char) : List Char :=
  (l.dropWhile (fun c => !isSep c)).drop 1

/-- Replace a colon or newline by a single space. -/
def sepToSpace (c : Char) : Char := if isSep c then ' ' else c

/-- The fixed list of conversational lead-in phrases from the source. -/
def leadInPhrases : List String :=
  ["Here is a comprehensive prompt", "Here is the prompt",
   "Here is a detailed prompt", "Sure, here is", "Prompt:"]

/-- The `for (const prefix of prefixes)` loop: on the first phrase that the
lower-cased content starts with, if the content splits into more than one
part at colons/newlines, drop the first part, rejoin the rest with single
spaces and trim, then stop; otherwise keep trying later phrases. -/
def removeLeadIn : List String → List Char → List Char
  | [], content => content
  | p :: ps, content =>
      if listIsPref (lowerList p.toList) (lowerList content) then
        if 1 < (splitCN content).length then
          jsTrim (joinSp ((splitCN content).drop 1))
        else removeLeadIn ps content
      else removeLeadIn ps content

/-- The whole post-processing pipeline of `generateOpenRouterPrompt`:
header/bold/quote stripping, trim, then lead-in removal. -/
def cleanOpenRouterResponse (raw : String) : String :=
  let content := jsTrim (stripWrapQuotes (removeBold (stripHeaders raw.toList)))
  String.mk (removeLeadIn leadInPhrases content)

/-- Modelled from the claim's words (for the refutation): when the cleaned
text starts case-insensitively with one of the fixed phrases, discard
everything up to and including the first colon or newline and keep the
remainder (trimmed, as in the claim's own example). -/
def claimLeadIn : List String → List Char → List Char
  | [], content => content
  | p :: ps, content =>
      if listIsPref (lowerList p.toList) (lowerList content) then
        if 1 < (splitCN content).length then
          jsTrim (afterFirstSep content)
        else claimLeadIn ps content
      else claimLeadIn ps content

/-- The claim's version of the whole pipeline: identical markdown
stripping, but the lead-in step keeps the remainder intact. -/
def claimClean (raw : String) : String :=
  let content := jsTrim (stripWrapQuotes (removeBold (stripHeaders raw.toList)))
  String.mk (claimLeadIn leadInPhrases content)

end ImgUrl

namespace ImgUrl

/-! ### Helper lemmas about the string helpers -/

theorem listIsPref_iff (p : List Char) : ∀ l, listIsPref p l = true ↔ p <+: l := by
  induction p with
  | nil => intro l; simp [listIsPref]
  | cons a as ih =>
    intro l
    cases l with
    | nil => simp [listIsPref]
    | cons b bs =>
      simp only [listIsPref, Bool.and_eq_true, decide_eq_true_eq, ih,
        List.cons_prefix_cons]

theorem containsSub_iff (l p : List Char) : containsSub l p = true ↔ p <:+: l := by
  induction l with
  | nil => simp [containsSub, List.isEmpty_iff, List.infix_nil]
  | cons c rest ih =>
    simp only [containsSub, Bool.or_eq_true, listIsPref_iff, ih,
      List.infix_cons_iff]

/-! ### Lemmas about the retry executor -/

theorem expWaits_length (m M b : ℚ) (r : Nat) : (expWaits m M b r).length = r := by
  induction r generalizing b with
  | zero => simp [expWaits]
  | succ r ih => simp [expWaits, ih]

theorem expWaits_get (m M : ℚ) (hm : 1 ≤ m) :
    ∀ (r : Nat) (b : ℚ), 0 ≤ b → b ≤ M →
      ∀ i < r, (expWaits m M b r).get? i = some (min (b * m ^ i) M) := by
  intro r
  induction r with
  | zero => intro b _ _ i hi; omega
  | succ r ih =>
    intro b hb hbM i hi
    cases i with
    | zero =>
      simp [expWaits, min_eq_left, hbM]
    | succ i =>
      have hm0 : (0 : ℚ) ≤ m := le_trans zero_le_one hm
      have hM0 : (0 : ℚ) ≤ M := le_trans hb hbM
      have hb' : (0 : ℚ) ≤ min (b * m) M := le_min (mul_nonneg hb hm0) hM0
      have h := ih (min (b * m) M) hb' (min_le_right _ _) i (by omega)
      have hmi : (1 : ℚ) ≤ m ^ i := by
        calc (1 : ℚ) = 1 ^ i := (one_pow i).symm
        _ ≤ m ^ i := pow_le_pow_left₀ zero_le_one hm i
      have hMmi : M ≤ M * m ^ i := le_mul_of_one_le_right hM0 hmi
      have hmin : min (min (b * m) M * m ^ i) M = min (b * m ^ (i + 1)) M := by
        have hmi0 : (0 : ℚ) ≤ m ^ i := le_trans zero_le_one hmi
        rw [min_mul_of_nonneg _ _ hmi0, min_assoc, min_eq_right hMmi,
          mul_assoc, ← pow_succ']
      rw [expWaits]
      simpa [hmin] using h

/-- Shape of the trace when every attempt fails with a rate-limit error. -/
theorem withRetryGo_allFail (oracle : Nat → Except JSError String)
    (cfg : RateLimitConfig)
    (hfail : ∀ i, ∃ e, oracle i = .error e ∧ isRateLimitError e = true) :
    ∀ (remaining attempt : Nat) (backoff : ℚ) (calls : Nat) (waits : List ℚ),
      (withRetryGo oracle cfg attempt remaining backoff calls waits).calls
          = calls + remaining + 1 ∧
      (withRetryGo oracle cfg attempt remaining backoff calls waits).waits
          = waits ++ expWaits cfg.backoffMultiplier cfg.maxBackoffMs backoff remaining := by
  intro remaining
  induction remaining with
  | zero =>
    intro attempt backoff calls waits
    obtain ⟨e, he, hrl⟩ := hfail attempt
    rw [withRetryGo, he]
    simp [hrl, expWaits]
  | succ r ih =>
    intro attempt backoff calls waits
    obtain ⟨e, he, hrl⟩ := hfail attempt
    rw [withRetryGo, he]
    simp only [hrl, if_true]
    have h := ih (attempt + 1)
      (min (backoff * cfg.backoffMultiplier) cfg.maxBackoffMs) (calls + 1)
      (waits ++ [backoff])
    refine ⟨by rw [h.1]; omega, ?_⟩
    rw [h.2, expWaits]
    simp

/-! ### Claim theorems about the retry executor -/

/-- **C1**: when every invocation of the action fails with a rate-limit
error, `withRetry` performs exactly `maxRetries + 1` calls (which equals
`min(attempts, maxRetries + 1)` since every attempt of the unbounded
failure sequence fails), and the wait inserted before retry attempt `k`
(`k = i + 1`, 1-based) equals
`min(initialBackoffMs * backoffMultiplier^(k-1), maxBackoffMs)`, for every
policy with `backoffMultiplier ≥ 1` (and the spec's policy invariants
`0 ≤ initialBackoffMs ≤ maxBackoffMs`). -/
theorem withRetry_allRateLimited (oracle : Nat → Except JSError String)
    (cfg : RateLimitConfig)
    (hfail : ∀ i, ∃ e, oracle i = .error e ∧ isRateLimitError e = true)
    (hmul : 1 ≤ cfg.backoffMultiplier)
    (hinit0 : 0 ≤ cfg.initialBackoffMs)
    (hinitM : cfg.initialBackoffMs ≤ cfg.maxBackoffMs) :
    (withRetry oracle cfg).calls = cfg.maxRetries + 1 ∧
    (withRetry oracle cfg).waits.length = cfg.maxRetries ∧
    ∀ i < cfg.maxRetries,
      (withRetry oracle cfg).waits.get? i =
        some (min (cfg.initialBackoffMs * cfg.backoffMultiplier ^ i) cfg.maxBackoffMs) := by
  have h := withRetryGo_allFail oracle cfg hfail cfg.maxRetries 0
    cfg.initialBackoffMs 0 []
  refine ⟨by rw [withRetry, h.1]; omega, ?_, ?_⟩
  · rw [withRetry, h.2]
    simp [expWaits_length]
  · intro i hi
    rw [withRetry, h.2]
    simpa using expWaits_get cfg.backoffMultiplier cfg.maxBackoffMs hmul
      cfg.maxRetries cfg.initialBackoffMs hinit0 hinitM i hi

/-- Witness for `withRetry_allRateLimited` at the default policy and an
always-throttled action: 4 calls, and the wait before retry attempt 3 is
`min(2000 * 2^2, 30000) = 8000`. -/
theorem withRetry_allRateLimited_witness :
    (1 : ℚ) ≤ DEFAULT_RATE_LIMIT_CONFIG.backoffMultiplier ∧
    (0 : ℚ) ≤ DEFAULT_RATE_LIMIT_CONFIG.initialBackoffMs ∧
    DEFAULT_RATE_LIMIT_CONFIG.initialBackoffMs ≤ DEFAULT_RATE_LIMIT_CONFIG.maxBackoffMs ∧
    (withRetry allRLOracle DEFAULT_RATE_LIMIT_CONFIG).calls = 4 ∧
    (withRetry allRLOracle DEFAULT_RATE_LIMIT_CONFIG).waits.get? 2 = some 8000 := by
  have h := withRetry_allRateLimited allRLOracle DEFAULT_RATE_LIMIT_CONFIG
    (fun i => ⟨_, rfl, by decide⟩)
    (by norm_num [DEFAULT_RATE_LIMIT_CONFIG])
    (by norm_num [DEFAULT_RATE_LIMIT_CONFIG])
    (by norm_num [DEFAULT_RATE_LIMIT_CONFIG])
  refine ⟨by norm_num [DEFAULT_RATE_LIMIT_CONFIG],
    by norm_num [DEFAULT_RATE_LIMIT_CONFIG],
    by norm_num [DEFAULT_RATE_LIMIT_CONFIG], by rw [h.1]; rfl, ?_⟩
  have h2 := h.2.2 2 (by norm_num [DEFAULT_RATE_LIMIT_CONFIG])
  rw [h2]
  norm_num [DEFAULT_RATE_LIMIT_CONFIG]

/-- **C6**: when the first invocation of the action fails with an error that
is not a rate-limit signal, `withRetry` calls the action exactly once and
fails immediately with that error, inserting no backoff wait and invoking
the `onRetry` callback zero times (the `waits` trace records exactly the
`onRetry` invocations). -/
theorem withRetry_nonRetryable (oracle : Nat → Except JSError String)
    (cfg : RateLimitConfig) (e : JSError)
    (h0 : oracle 0 = .error e) (hnr : isRateLimitError e = false) :
    (withRetry oracle cfg).result = .error (toJSError e) ∧
    (withRetry oracle cfg).calls = 1 ∧
    (withRetry oracle cfg).waits = [] := by
  rw [withRetry, withRetryGo, h0]
  simp [hnr]

/-- Witness for `withRetry_nonRetryable`: a non-throttling failure on the
first call of an action under the default policy. -/
theorem withRetry_nonRetryable_witness :
    nonRLOracle 0 = .error (.errorObj "invalid api key") ∧
    isRateLimitError (.errorObj "invalid api key") = false ∧
    (withRetry nonRLOracle DEFAULT_RATE_LIMIT_CONFIG).result
        = .error (toJSError (.errorObj "invalid api key")) ∧
    (withRetry nonRLOracle DEFAULT_RATE_LIMIT_CONFIG).calls = 1 ∧
    (withRetry nonRLOracle DEFAULT_RATE_LIMIT_CONFIG).waits = [] := by
  refine ⟨rfl, by decide, ?_⟩
  exact withRetry_nonRetryable nonRLOracle DEFAULT_RATE_LIMIT_CONFIG _ rfl (by decide)

/-- **C8**: the retry executor classifies an error as a retryable rate-limit
signal iff it is an `Error` whose message contains, case-insensitively, one
of the substrings "429", "rate limit", "resource exhausted", or
"too many requests"; every other thrown value is non-retryable. -/
theorem isRateLimitError_iff (err : JSError) :
    isRateLimitError err = true ↔
      ∃ m, err = .errorObj m ∧
        ("429".toList <:+: lowerList m.toList ∨
         "rate limit".toList <:+: lowerList m.toList ∨
         "resource exhausted".toList <:+: lowerList m.toList ∨
         "too many requests".toList <:+: lowerList m.toList) := by
  cases err with
  | errorObj m =>
    simp [isRateLimitError, containsSub_iff, or_assoc]
  | other s =>
    simp [isRateLimitError]

/-! ### Claim theorems about the rate-limited queue -/

/-- **C2**: for every policy with `delayMs = d`, the drain loop never
begins two consecutive dispatches less than `d` milliseconds apart
(whatever the nonnegative execution durations).  The chain also relates
the previous `lastRequestTime` to the first dispatch, so the bound holds
across drain cycles as well. -/
theorem processQueue_spacing (cfg : RateLimitConfig) (st : DrainState)
    (durs : List ℚ) (hdur : ∀ d ∈ durs, 0 ≤ d) :
    List.Chain' (fun a b => a + cfg.delayMs ≤ b)
      (st.lastRequestTime :: dispatchTimes cfg st durs) := by
  induction durs generalizing st with
  | nil => simp [dispatchTimes]
  | cons dur durs ih =>
    rw [dispatchTimes, List.chain'_cons]
    constructor
    · have h1 : cfg.delayMs ≤ minDelayOf cfg := by
        rw [minDelayOf]; exact le_max_left _ _
      have h2 : minDelayOf cfg - (st.time - st.lastRequestTime) ≤
          max 0 (minDelayOf cfg - (st.time - st.lastRequestTime)) :=
        le_max_right _ _
      simp only [dispatchStep]
      linarith
    · have h := ih (dispatchStep cfg st dur).2
        (fun d hd => hdur d (List.mem_cons_of_mem _ hd))
      simpa [dispatchStep] using h

/-- Witness for `processQueue_spacing`: two items with durations 0 and
500 ms drained under the default policy are dispatched at 2000 and 4000 ms,
2000 ms apart. -/
theorem processQueue_spacing_witness :
    (∀ d ∈ ([0, 500] : List ℚ), 0 ≤ d) ∧
    dispatchTimes DEFAULT_RATE_LIMIT_CONFIG ⟨0, 0⟩ [0, 500] = [2000, 4000] ∧
    List.Chain' (fun a b => a + DEFAULT_RATE_LIMIT_CONFIG.delayMs ≤ b)
      ((0 : ℚ) :: dispatchTimes DEFAULT_RATE_LIMIT_CONFIG ⟨0, 0⟩ [0, 500]) := by
  refine ⟨by decide, ?_, processQueue_spacing DEFAULT_RATE_LIMIT_CONFIG ⟨0, 0⟩ [0, 500] (by decide)⟩
  norm_num [dispatchTimes, dispatchStep, minDelayOf, DEFAULT_RATE_LIMIT_CONFIG, max_def]

/-- **C5**: on a queue with `N` pending entries and no entry currently
executing, `clearQueue` rejects all `N` pending entries' promises with a
"Queue cleared" error and leaves the queue size at 0; nothing else of the
limiter state is touched (an entry already executing lives outside
`queue`, so it is not interrupted). -/
theorem clearQueue_spec (st : LimiterState) (h : st.isProcessing = false) :
    getQueueSize (clearQueue st).1 = 0 ∧
    (clearQueue st).2.length = getQueueSize st ∧
    (∀ r ∈ (clearQueue st).2, r.2 = "Queue cleared") ∧
    (clearQueue st).2.map Prod.fst = st.queue ∧
    (clearQueue st).1.isProcessing = false ∧
    (clearQueue st).1.lastRequestTime = st.lastRequestTime ∧
    (clearQueue st).1.config = st.config := by
  refine ⟨rfl, by simp [clearQueue, getQueueSize], ?_, ?_, h, rfl, rfl⟩
  · intro r hr
    simp only [clearQueue, List.mem_map] at hr
    obtain ⟨i, _, rfl⟩ := hr
    rfl
  · simp only [clearQueue, List.map_map]
    exact List.map_id st.queue

/-- Witness for `clearQueue_spec`: three pending entries, none executing;
all three are rejected with "Queue cleared" and the queue is left empty. -/
theorem clearQueue_witness :
    (⟨[1, 2, 3], false, 0, DEFAULT_RATE_LIMIT_CONFIG⟩ : LimiterState).isProcessing = false ∧
    getQueueSize (clearQueue ⟨[1, 2, 3], false, 0, DEFAULT_RATE_LIMIT_CONFIG⟩).1 = 0 ∧
    (clearQueue ⟨[1, 2, 3], false, 0, DEFAULT_RATE_LIMIT_CONFIG⟩).2 =
      [(1, "Queue cleared"), (2, "Queue cleared"), (3, "Queue cleared")] := by
  exact ⟨rfl, (clearQueue_spec _ rfl).1, rfl⟩

/-! ### Helper lemmas about the prompts map and the batch fold -/

theorem mapGet_mapSet_self (m : PromptMap) (k : String) (v : PromptEntry) :
    mapGet (mapSet m k v) k = some v := by
  induction m with
  | nil => simp [mapSet, mapGet]
  | cons p rest ih =>
    obtain ⟨a, b⟩ := p
    by_cases h : a = k
    · simp [mapSet, mapGet, h]
    · simp [mapSet, mapGet, h, ih]

theorem mapGet_mapSet_ne (m : PromptMap) (k' k : String) (v : PromptEntry)
    (h : k' ≠ k) : mapGet (mapSet m k' v) k = mapGet m k := by
  induction m with
  | nil => simp [mapSet, mapGet, h]
  | cons p rest ih =>
    obtain ⟨a, b⟩ := p
    by_cases ha : a = k'
    · subst ha
      simp [mapSet, mapGet, h]
    · simp [mapSet, mapGet, ha, ih]

theorem mapGet_applyOutcome_self (m : PromptMap) (url : String)
    (o : Except String String) :
    mapGet (applyOutcome m url o) url = some (terminalEntry url o) := by
  cases o <;> simp [applyOutcome, terminalEntry, mapGet_mapSet_self]

theorem mapGet_applyOutcome_ne (m : PromptMap) (url u : String)
    (o : Except String String) (h : url ≠ u) :
    mapGet (applyOutcome m url o) u = mapGet m u := by
  cases o <;> simp [applyOutcome, mapGet_mapSet_ne _ _ _ _ h]

theorem runTerminalEvents_fold (outcomes : String → Except String String)
    (total : Nat) :
    ∀ (order : List String) (m : PromptMap) (c : Nat) (ps : List ProgressInfo),
      (order.foldl
        (fun (acc : PromptMap × Nat × List ProgressInfo) url =>
          (applyOutcome acc.1 url (outcomes url), acc.2.1 + 1,
           acc.2.2 ++ [mkProgress (acc.2.1 + 1) total])) (m, c, ps))
        = (order.foldl (fun mm u => applyOutcome mm u (outcomes u)) m,
           c + order.length,
           ps ++ (List.range order.length).map (fun i => mkProgress (c + i + 1) total)) := by
  intro order
  induction order with
  | nil => intro m c ps; simp
  | cons w rest ih =>
    intro m c ps
    simp only [List.foldl_cons]
    rw [ih]
    simp only [Prod.mk.injEq, List.length_cons]
    refine ⟨trivial, by omega, ?_⟩
    rw [List.append_assoc, List.singleton_append, List.range_succ_eq_map,
      List.map_cons, List.map_map]
    refine congrArg _ (congrArg _ ?_)
    refine List.map_congr_left (fun i _ => ?_)
    simp only [Function.comp]
    have hx : c + 1 + i + 1 = c + (i + 1) + 1 := by omega
    rw [hx]

theorem runTerminalEvents_map_eq (m : PromptMap) (total : Nat)
    (outcomes : String → Except String String) (order : List String) :
    (runTerminalEvents m total outcomes order).map
      = order.foldl (fun mm u => applyOutcome mm u (outcomes u)) m := by
  rw [runTerminalEvents, runTerminalEvents_fold]

theorem runTerminalEvents_snapshots_eq (m : PromptMap) (total : Nat)
    (outcomes : String → Except String String) (order : List String) :
    (runTerminalEvents m total outcomes order).snapshots
      = (List.range order.length).map (fun i => mkProgress (i + 1) total) := by
  rw [runTerminalEvents, runTerminalEvents_fold]
  simp

theorem foldl_applyOutcome_not_mem (outcomes : String → Except String String)
    (u : String) :
    ∀ (order : List String), u ∉ order → ∀ m : PromptMap,
      mapGet (order.foldl (fun mm x => applyOutcome mm x (outcomes x)) m) u
        = mapGet m u := by
  intro order
  induction order with
  | nil => intro _ m; rfl
  | cons w rest ih =>
    intro hu m
    rw [List.foldl_cons, ih (fun hm => hu (List.mem_cons_of_mem _ hm)),
      mapGet_applyOutcome_ne]
    intro he
    exact hu (he ▸ List.mem_cons_self _ _)

theorem foldl_applyOutcome_mem (outcomes : String → Except String String)
    (u : String) :
    ∀ (order : List String), order.Nodup → u ∈ order → ∀ m : PromptMap,
      mapGet (order.foldl (fun mm x => applyOutcome mm x (outcomes x)) m) u
        = some (terminalEntry u (outcomes u)) := by
  intro order
  induction order with
  | nil => intro _ hu; exact absurd hu (List.not_mem_nil u)
  | cons w rest ih =>
    intro hnd hu m
    rw [List.foldl_cons]
    rcases List.mem_cons.mp hu with rfl | hmem
    · rw [foldl_applyOutcome_not_mem outcomes u rest (List.nodup_cons.mp hnd).1,
        mapGet_applyOutcome_self]
    · exact ih (List.nodup_cons.mp hnd).2 hmem _

/-! ### Claim theorems about the batch orchestrator -/

/-- **C4**: for every list of references and every mix of per-job outcomes
and every interleaving of job completions, `generatePrompts` (a total
function in this model — every per-job failure is caught inside the job's
own `try`/`catch`, so no batch-level exception exists) resolves only after
all jobs are terminal (one progress snapshot per job is published), and
the final map holds every submitted reference in a terminal state —
`completed` with its text or `error` with its failure message — each
determined solely by that job's own outcome, so one job's failure never
aborts the batch or any other job. -/
theorem generatePrompts_resolves_terminal (prior : PromptMap)
    (urls : List String) (outcomes : String → Except String String)
    (order : List String) (hperm : order.Perm urls) (hnd : urls.Nodup) :
    (∀ u ∈ urls,
      mapGet (generatePromptsModel prior urls outcomes order).map u
        = some (terminalEntry u (outcomes u))) ∧
    (generatePromptsModel prior urls outcomes order).snapshots.length
      = urls.length := by
  constructor
  · intro u hu
    have hnd' : order.Nodup := hperm.nodup_iff.mpr hnd
    have hu' : u ∈ order := hperm.mem_iff.mpr hu
    rw [generatePromptsModel, runTerminalEvents_map_eq]
    exact foldl_applyOutcome_mem outcomes u order hnd' hu' _
  · rw [generatePromptsModel, runTerminalEvents_snapshots_eq]
    simp [hperm.length_eq]

/-- Witness for `generatePrompts_resolves_terminal`: two references, one
succeeding and one failing, completing in reverse order; the failing one
ends in an `error` entry carrying its message, and two snapshots are
published. -/
theorem generatePrompts_resolves_terminal_witness :
    List.Perm ["b.png", "a.png"] ["a.png", "b.png"] ∧
    (["a.png", "b.png"] : List String).Nodup ∧
    mapGet (generatePromptsModel [] ["a.png", "b.png"] sampleOutcomes
        ["b.png", "a.png"]).map "b.png"
      = some ⟨"b.png", "", some "boom", JobStatus.error⟩ ∧
    (generatePromptsModel [] ["a.png", "b.png"] sampleOutcomes
        ["b.png", "a.png"]).snapshots.length = 2 := by
  have hperm : List.Perm ["b.png", "a.png"] ["a.png", "b.png"] :=
    List.Perm.swap "a.png" "b.png" []
  have hnd : (["a.png", "b.png"] : List String).Nodup := by decide
  have h := generatePrompts_resolves_terminal [] ["a.png", "b.png"]
    sampleOutcomes ["b.png", "a.png"] hperm hnd
  have h1 := h.1 "b.png" (by simp)
  refine ⟨hperm, hnd, ?_, h.2⟩
  rw [h1]
  rfl

/-- **C9**: the progress snapshot is recomputed after each job reaches a
terminal state, with `current` incremented by exactly one per terminal job
and `percentage = round(current / total * 100)` (JS `Math.round`, half-up). -/
theorem generatePrompts_progress (prior : PromptMap) (urls : List String)
    (outcomes : String → Except String String) (order : List String)
    (hlen : order.length = urls.length) :
    (generatePromptsModel prior urls outcomes order).snapshots
      = (List.range urls.length).map
          (fun i => ⟨i + 1, urls.length,
            jsRound (((i : ℚ) + 1) / (urls.length : ℚ) * 100)⟩) := by
  rw [generatePromptsModel, runTerminalEvents_snapshots_eq, hlen]
  refine List.map_congr_left (fun i _ => ?_)
  rw [mkProgress]
  refine congrArg _ (congrArg _ ?_)
  push_cast
  ring

/-- Witness for `generatePrompts_progress`, matching the spec's end-to-end
example: a batch of 3 references that all succeed publishes snapshots
`{1,3,33}`, `{2,3,67}` and finally `{completed: 3, total: 3, percentage: 100}`. -/
theorem generatePrompts_progress_witness :
    (["a.png", "b.png", "c.png"] : List String).length = 3 ∧
    (generatePromptsModel [] ["a.png", "b.png", "c.png"] okOutcomes
        ["a.png", "b.png", "c.png"]).snapshots
      = [⟨1, 3, 33⟩, ⟨2, 3, 67⟩, ⟨3, 3, 100⟩] := by
  have h := generatePrompts_progress [] ["a.png", "b.png", "c.png"] okOutcomes
    ["a.png", "b.png", "c.png"] rfl
  refine ⟨rfl, ?_⟩
  rw [h]
  norm_num [List.range_succ, jsRound]

/-- **C3** (code behaviour at the claim's failing input): the job closure
of `generatePrompts` invokes the `generatePromptForImage` adapter pipeline
for *every* url of the batch — there is no guard on the map state — so a
reference whose entry is already `completed` is re-issued on resubmission,
contrary to the claim/spec.  The second and third conjuncts evaluate the
trace at the concrete failing input: a resubmitted batch containing a
reference already `completed`. -/
theorem generatePrompts_always_invokes_adapter :
    (∀ (m : PromptMap) (url : String) (o : Except String String),
        JobAction.invokeAdapter url ∈ jobTrace m url o) ∧
    statusIs [("done.png", ⟨"done.png", "old prompt", none, JobStatus.completed⟩)]
        "done.png" JobStatus.completed = true ∧
    JobAction.invokeAdapter "done.png" ∈
      jobTrace [("done.png", ⟨"done.png", "old prompt", none, JobStatus.completed⟩)]
        "done.png" (Except.ok "fresh prompt") := by
  refine ⟨fun m url o => ?_, rfl, by decide⟩
  simp [jobTrace]

/-- **C10**: passing `rateLimitConfig` to `generatePromptForImage` mutates
the single module-global `RateLimiter`'s configuration; the mutated
configuration governs this call and every subsequent call (from any batch)
until a later call reconfigures it — there is no per-call or per-batch
limiter isolation. -/
theorem generatePromptForImage_mutates_global (g : RateLimitConfig)
    (p : ConfigPatch) :
    (generatePromptForImageConfig g (some p)).1 = mergeConfig g p ∧
    (generatePromptForImageConfig g (some p)).2 = mergeConfig g p ∧
    (generatePromptForImageConfig
        (generatePromptForImageConfig g (some p)).2 none).1 = mergeConfig g p ∧
    ∀ q : ConfigPatch,
      (generatePromptForImageConfig
          (generatePromptForImageConfig g (some p)).2 (some q)).2
        = mergeConfig (mergeConfig g p) q :=
  ⟨rfl, rfl, rfl, fun _ => rfl⟩

/-! ### Helper lemmas about the split/join of the lead-in heuristic -/

theorem splitCN_ne_nil : ∀ l : List Char, splitCN l ≠ [] := by
  intro l
  cases l with
  | nil => simp [splitCN]
  | cons c rest =>
    rw [splitCN]
    split
    · simp
    · cases hs : splitCN rest <;> simp [hs]

theorem joinSp_splitCN : ∀ l : List Char, joinSp (splitCN l) = l.map sepToSpace := by
  intro l
  induction l with
  | nil => rfl
  | cons c rest ih =>
    rw [splitCN]
    rcases hs : splitCN rest with _ | ⟨h1, t⟩
    · exact absurd hs (splitCN_ne_nil rest)
    rw [hs] at ih
    by_cases hc : isSep c = true
    · rw [if_pos hc]
      rw [joinSp, List.map_cons, ← ih]
      simp [sepToSpace, hc]
    · rw [if_neg hc]
      cases t with
      | nil =>
        rw [joinSp] at ih
        simp [joinSp, List.map_cons, sepToSpace, hc, ← ih]
      | cons y t2 =>
        rw [joinSp] at ih
        simp only [joinSp, List.map_cons, ← ih, List.cons_append]
        simp [sepToSpace, hc]

theorem splitCN_eq_cons (l : List Char) (h : l.any isSep = true) :
    splitCN l = (l.takeWhile (fun c => !isSep c)) :: splitCN (afterFirstSep l) := by
  induction l with
  | nil => simp at h
  | cons c rest ih =>
    by_cases hc : isSep c = true
    · rw [splitCN, if_pos hc]
      simp [List.takeWhile_cons, afterFirstSep, List.dropWhile_cons, hc]
    · have h2 : rest.any isSep = true := by
        rcases List.any_eq_true.mp h with ⟨x, hx, hsx⟩
        rcases List.mem_cons.mp hx with rfl | hxr
        · exact absurd hsx hc
        · exact List.any_eq_true.mpr ⟨x, hxr, hsx⟩
      rw [splitCN, if_neg hc, ih h2]
      simp [List.takeWhile_cons, afterFirstSep, List.dropWhile_cons, hc]

theorem splitCN_length_gt (l : List Char) (h : l.any isSep = true) :
    1 < (splitCN l).length := by
  rw [splitCN_eq_cons l h]
  have h1 : 0 < (splitCN (afterFirstSep l)).length :=
    List.length_pos.mpr (splitCN_ne_nil _)
  simp only [List.length_cons]
  omega

theorem removeLeadIn_eq (content : List Char) (hsep : content.any isSep = true) :
    ∀ ps : List String,
      ps.any (fun p => listIsPref (lowerList p.toList) (lowerList content)) = true →
      removeLeadIn ps content = jsTrim ((afterFirstSep content).map sepToSpace) := by
  intro ps
  induction ps with
  | nil => intro h; simp at h
  | cons p ps ih =>
    intro h
    rw [removeLeadIn]
    by_cases hp : listIsPref (lowerList p.toList) (lowerList content) = true
    · rw [if_pos hp, if_pos (splitCN_length_gt content hsep),
        splitCN_eq_cons content hsep]
      rw [List.drop_succ_cons, List.drop_zero, joinSp_splitCN]
    · rw [if_neg hp]
      refine ih ?_
      rcases List.any_eq_true.mp h with ⟨q, hq, hpq⟩
      rcases List.mem_cons.mp hq with rfl | hqr
      · exact absurd hpq hp
      · exact List.any_eq_true.mpr ⟨q, hqr, hpq⟩

/-! ### Claim theorems about the OpenRouter post-processing -/

/-- **C7** (counterexample to the claim as stated): on the raw response
"Here is the prompt: A: B" the code does *not* leave the remainder after
the first colon intact — it splits at every colon/newline and rejoins with
single spaces, yielding "A  B", while the claim's reading (remainder after
the first colon, trimmed) yields "A: B". -/
theorem cleanOpenRouter_counterexample :
    cleanOpenRouterResponse "Here is the prompt: A: B" = "A  B" ∧
    claimClean "Here is the prompt: A: B" = "A: B" ∧
    cleanOpenRouterResponse "Here is the prompt: A: B"
      ≠ claimClean "Here is the prompt: A: B" := by
  refine ⟨by decide, by decide, by decide⟩

/-- **C7** (amended): the post-processing strips markdown headers, bold
markers and wrapping quotes; when the cleaned text starts
case-insensitively with one of the fixed conversational phrases and
contains a colon or newline, it discards everything up to and including
the first colon or newline, replaces every later colon or newline of the
remainder by a single space (the code rejoins the split segments with
single spaces), and trims.  In particular the claim's two examples hold:
"Here is the prompt: A red bicycle..." normalizes to "A red bicycle..."
and "**Bold** text" normalizes to "Bold text". -/
theorem cleanOpenRouter_amended :
    cleanOpenRouterResponse "Here is the prompt: A red bicycle..."
      = "A red bicycle..." ∧
    cleanOpenRouterResponse "**Bold** text" = "Bold text" ∧
    ∀ content : List Char, content.any isSep = true →
      ∀ ps : List String,
        ps.any (fun p => listIsPref (lowerList p.toList) (lowerList content)) = true →
        removeLeadIn ps content = jsTrim ((afterFirstSep content).map sepToSpace) := by
  exact ⟨by decide, by decide, fun content hsep ps hps => removeLeadIn_eq content hsep ps hps⟩

/-- Witness for `cleanOpenRouter_amended` at a concrete content with a
matching phrase and a second colon in the remainder. -/
theorem cleanOpenRouter_amended_witness :
    ("Prompt: first: second".toList.any isSep = true) ∧
    (leadInPhrases.any (fun p =>
        listIsPref (lowerList p.toList) (lowerList "Prompt: first: second".toList)) = true) ∧
    removeLeadIn leadInPhrases "Prompt: first: second".toList
      = jsTrim ((afterFirstSep "Prompt: first: second".toList).map sepToSpace) ∧
    removeLeadIn leadInPhrases "Prompt: first: second".toList
      = "first  second".toList := by
  refine ⟨by decide, by decide,
    cleanOpenRouter_amended.2.2 _ (by decide) _ (by decide), by decide⟩

end ImgUrl
